import Mathlib

/-!
Verification development for a DAXPY (y := α·x + y) benchmark written in C++.

The repository has two drivers:
  * `daxpy_benchmark.cpp`   — driver 1, unsynchronized, deterministic init;
  * `multi_threaded_daxpy.cpp` — driver 2, barrier-gated, random init,
    with a sequential verification pass.

IEEE-754 doubles are modelled by exact rationals (`ℚ`).  Both the parallel
and the sequential code compute each element `y[i]` by the single expression
`alpha * x[i] + y[i]`, evaluated exactly once per index with no cross-element
accumulation, so the parallel and sequential results are bit-identical even
in floating point; the exact model captures this faithfully.
Vectors (`std::vector<double>`) are modelled as `List ℚ`; an element read
`v[i]` becomes `v.getD i 0` (the default is never reached under the length
hypotheses of the theorems).
-/


/-- Tolerance `1e-10` used by `verify_results` in `multi_threaded_daxpy.cpp`. -/
def tol : ℚ := 1 / 10 ^ 10

/-! ### Partitioner

From `daxpy_benchmark.cpp` lines 37–44 (`chunk_size`, `start`, `end`) and
`multi_threaded_daxpy.cpp` lines 47–50 (`elements_per_thread`, `start_idx`,
`end_idx`); both drivers compute the same static partition. -/

/-- Per-thread chunk: `size_t chunk_size = vector_size / num_threads;`. -/
def chunk_size (N T : ℕ) : ℕ := N / T

/-- Partition start: `size_t start = t * chunk_size;`. -/
def start_idx (N T t : ℕ) : ℕ := t * chunk_size N T

/-- Partition end:
`size_t end = (t == num_threads - 1) ? vector_size : (t + 1) * chunk_size;`
(`start_idx + elements_per_thread` in driver 2 equals `(t+1) * chunk`). -/
def end_idx (N T t : ℕ) : ℕ := if t = T - 1 then N else (t + 1) * chunk_size N T

/-- The list of all `T` partitions `[start_t, end_t)`, one per launched thread
(`for (size_t t = 0; t < num_threads; ++t)`). -/
def partitions (N T : ℕ) : List (ℕ × ℕ) :=
  (List.range T).map fun t => (start_idx N T t, end_idx N T t)

/-! ### DAXPY compute kernels

From `daxpy_benchmark.cpp` lines 28–33 (`daxpy_thread`) and
`multi_threaded_daxpy.cpp` lines 62–65 (the loop body of `thread_worker`):
`for (size_t i = start; i < end; ++i) y[i] = alpha * x[i] + y[i];`. -/

/-- One worker's loop over its half-open range `[s, e)`:
`for (size_t i = start; i < end; ++i) y[i] = alpha * x[i] + y[i];`. -/
def daxpy_thread (alpha : ℚ) (x : List ℚ) (s e : ℕ) (y : List ℚ) : List ℚ :=
  (List.range' s (e - s)).foldl
    (fun ys i => ys.set i (alpha * x.getD i 0 + ys.getD i 0)) y

/-- The multi-threaded phase.  The C++ launches one thread per partition with
disjoint index ranges and joins them all; since no index is touched by two
workers (proved below through `run_multithreaded_getD`), any interleaving is
equivalent to processing the partitions in order, which is how we model it. -/
def run_multithreaded (alpha : ℚ) (x y : List ℚ) (N T : ℕ) : List ℚ :=
  (List.range T).foldl
    (fun ys t => daxpy_thread alpha x (start_idx N T t) (end_idx N T t) ys) y

/-- Driver 1's single-threaded phase: `daxpy_thread(0, vector_size);`. -/
def run_single_threaded (alpha : ℚ) (x y : List ℚ) (N : ℕ) : List ℚ :=
  daxpy_thread alpha x 0 N y

/-- The sequential pass `for (size_t i = 0; i < vector_size; ++i)
y[i] = alpha * x[i] + y[i];` used by `run_sequential` and by
`verify_results` (lines 112–114 and 129–131 of `multi_threaded_daxpy.cpp`). -/
def sequential_daxpy (alpha : ℚ) (x : List ℚ) (N : ℕ) (y : List ℚ) : List ℚ :=
  daxpy_thread alpha x 0 N y

/-! ### Verifier (`MultiThreadedDaxpy::verify_results`, lines 123–156)

The class state of `MultiThreadedDaxpy` that the verifier touches. -/

structure MTDState where
  vector_size : ℕ
  alpha : ℚ
  x : List ℚ
  y : List ℚ
  y_original : List ℚ

/-- Result of one run of `verify_results`: the printed verdict, the printed
maximum error, and the printed first `min(10, vector_size)` results. -/
structure VerifyOutput where
  passed : Bool
  max_error : ℚ
  first_results : List ℚ

/-- The comparison loop of `verify_results` (lines 134–142): a single pass
updating both `correct` and `max_error`:
`error = |parallel_result[i] - y[i]|; max_error = max(max_error, error);
if (error > 1e-10) correct = false;`. -/
def verify_fold (par yseq : List ℚ) (n : ℕ) : Bool × ℚ :=
  (List.range n).foldl
    (fun acc i =>
      let error := |par.getD i 0 - yseq.getD i 0|
      (if error > tol then false else acc.1, max acc.2 error))
    (true, 0)

/-- The whole of `verify_results`: save the parallel result, overwrite `y`
with the sequential recomputation from `y_original`, compare, restore `y`,
and print the first `min(10, vector_size)` entries of the restored buffer. -/
def verify_results (s : MTDState) : VerifyOutput × MTDState :=
  let parallel_result := s.y
  let s1 : MTDState := { s with y := s.y_original }
  let s2 : MTDState :=
    { s1 with y := sequential_daxpy s.alpha s.x s.vector_size s1.y }
  let cm := verify_fold parallel_result s2.y s.vector_size
  let s3 : MTDState := { s2 with y := parallel_result }
  (⟨cm.1, cm.2, s3.y.take (min 10 s.vector_size)⟩, s3)

/-! ### Driver 1 vector initialization and compute phase

From the `DaxpyBenchmark` constructor (lines 22–25):
`x[i] = static_cast<double>(i + 1); y[i] = static_cast<double>(vector_size - i);`
(`vector_size - i` is `size_t` arithmetic, i.e. truncated subtraction, and is
never negative since `i < vector_size`). -/

def initX (n : ℕ) : List ℚ := (List.range n).map fun i : ℕ => (i : ℚ) + 1

def initY (n : ℕ) : List ℚ := (List.range n).map fun i : ℕ => ((n - i : ℕ) : ℚ)

/-- Driver 1's compute phase dispatch (lines 99–103):
`if (num_threads > 1) run_multithreaded(); else run_single_threaded();`. -/
def driver1_compute (N T : ℕ) (alpha : ℚ) : List ℚ :=
  if T > 1 then run_multithreaded alpha (initX N) (initY N) N T
  else run_single_threaded alpha (initX N) (initY N) N

/-- Driver 1's `print_results` (lines 71–77): the first `min(10, vector_size)`
elements of `y` after the compute phase. -/
def driver1_print (N T : ℕ) (alpha : ℚ) : List ℚ :=
  (driver1_compute N T alpha).take (min 10 N)

/-! ### Command-line parsing

`std::stoul` / `std::stoull` / `std::stoi` / `std::stod` throw
`std::invalid_argument` when no conversion can be performed and
`std::out_of_range` when the value does not fit the result type; both
failure modes are modelled as `none` (in both drivers such a throw escapes
any handler, see the driver models below).  A successful parse is `some v`.
The C++ functions skip leading whitespace, accept one optional sign, and
consume the longest valid prefix, ignoring trailing garbage; hexadecimal,
exponent and infinity/NaN forms are not exercised by any claim and are not
modelled. -/

def digitsToNat (ds : List Char) : ℕ :=
  ds.foldl (fun a c => a * 10 + (c.toNat - 48)) 0

/-- Longest leading digit run; `none` when there is no digit to convert
(`std::invalid_argument`). -/
def parseDigits (cs : List Char) : Option ℕ :=
  let ds := cs.takeWhile fun c => c.isDigit
  if ds.isEmpty then none else some (digitsToNat ds)

/-- Model of `std::stoull` (64-bit unsigned; `strtoull` wraps a leading
minus sign modulo 2^64, and values beyond the type raise
`std::out_of_range`). -/
def stoull (s : String) : Option ℕ :=
  let cs := s.data.dropWhile fun c => c.isWhitespace
  let signed : Bool × List Char :=
    match cs with
    | '-' :: rest => (true, rest)
    | '+' :: rest => (false, rest)
    | _ => (false, cs)
  match parseDigits signed.2 with
  | none => none
  | some v =>
      if v < 2 ^ 64 then
        some (if signed.1 then (2 ^ 64 - v) % 2 ^ 64 else v)
      else none

/-- Model of `std::stoul`; `unsigned long` is 64-bit on the LP64 targets the
benchmark is built for, so it coincides with `stoull`. -/
def stoul (s : String) : Option ℕ := stoull s

/-- Model of `std::stoi` (32-bit signed int). -/
def stoi (s : String) : Option ℤ :=
  let cs := s.data.dropWhile fun c => c.isWhitespace
  let signed : ℤ × List Char :=
    match cs with
    | '-' :: rest => (-1, rest)
    | '+' :: rest => (1, rest)
    | _ => (1, cs)
  match parseDigits signed.2 with
  | none => none
  | some v =>
      let w : ℤ := signed.1 * v
      if -(2 ^ 31) ≤ w ∧ w < 2 ^ 31 then some w else none

/-- Model of `std::stod` on decimal literals (optional sign, integer digits,
optional fraction): the forms the benchmark CLI is exercised with. -/
def stod (s : String) : Option ℚ :=
  let cs := s.data.dropWhile fun c => c.isWhitespace
  let signed : ℚ × List Char :=
    match cs with
    | '-' :: rest => (-1, rest)
    | '+' :: rest => (1, rest)
    | _ => (1, cs)
  let intPart := signed.2.takeWhile fun c => c.isDigit
  let cs2 := signed.2.drop intPart.length
  match cs2 with
  | '.' :: rest =>
      let fracPart := rest.takeWhile fun c => c.isDigit
      if intPart.isEmpty && fracPart.isEmpty then none
      else some (signed.1 * ((digitsToNat intPart : ℚ) +
        (digitsToNat fracPart : ℚ) / (10 : ℚ) ^ fracPart.length))
  | _ =>
      if intPart.isEmpty then none
      else some (signed.1 * (digitsToNat intPart : ℚ))

/-! ### Process-exit model

An exception thrown outside every try/catch block reaches `std::terminate`,
which calls `std::abort`: the process is killed by `SIGABRT` and `main`
never returns an exit code. -/

inductive ProcExit where
  | exited (code : ℕ)
  | aborted
deriving DecidableEq

/-- True exactly when the process performed a normal exit with a non-zero
exit code. -/
def isNonzeroExit : ProcExit → Bool
  | .exited c => decide (c ≠ 0)
  | .aborted => false

/-! ### Driver 1 `main` (`daxpy_benchmark.cpp` lines 80–109)

There is no try/catch anywhere in driver 1, so a throwing `std::stoul` or
`std::stod` call (lines 87–89) terminates the process abnormally.  Every
run that survives parsing constructs the benchmark, computes, prints and
returns 0. -/

inductive Driver1Result where
  | parseAbort
  | done (firstResults : List ℚ)
deriving DecidableEq

def driver1_main (args : List String) : Driver1Result :=
  let vs? := if 1 ≤ args.length then stoul (args.getD 0 "") else some 1000
  match vs? with
  | none => .parseAbort
  | some vector_size =>
    let nt? := if 2 ≤ args.length then stoul (args.getD 1 "") else some 1
    match nt? with
    | none => .parseAbort
    | some num_threads =>
      let a? := if 3 ≤ args.length then stod (args.getD 2 "") else some (5 / 2)
      match a? with
      | none => .parseAbort
      | some alpha => .done (driver1_print vector_size num_threads alpha)

def driver1_exit (args : List String) : ProcExit :=
  match driver1_main args with
  | .parseAbort => .aborted
  | .done _ => .exited 0

/-- Whether driver 1 reached its compute phase: only the `.done` path runs
`run_multithreaded`/`run_single_threaded` (lines 97–103 come after parsing). -/
def driver1_ran_compute (args : List String) : Bool :=
  match driver1_main args with
  | .done _ => true
  | .parseAbort => false

/-! ### Driver 2 `main` (`multi_threaded_daxpy.cpp` lines 159–195)

Control flow in source order: the `argc != 4` usage check (return 1), the
three numeric parses at lines 166–168 — which sit BEFORE the try block at
line 181, so a parse throw is uncaught and aborts the process — the thread
count check (return 1), the vector-size check (return 1), and only then the
benchmark inside try/catch (return 0 on success).  Each constructor below
is one of these return paths. -/

inductive Driver2Result where
  | usageError
  | parseAbort
  | threadCountError
  | sizeError
  | ranBenchmark
deriving DecidableEq

def driver2_main (args : List String) (hw : ℕ) : Driver2Result :=
  if args.length ≠ 3 then .usageError
  else
    match stoull (args.getD 0 "") with
    | none => .parseAbort
    | some vector_size =>
      match stoi (args.getD 1 "") with
      | none => .parseAbort
      | some num_threads =>
        match stod (args.getD 2 "") with
        | none => .parseAbort
        | some _ =>
          if num_threads ≤ 0 ∨ (hw : ℤ) < num_threads then .threadCountError
          else if vector_size = 0 then .sizeError
          else .ranBenchmark

def driver2_exit (args : List String) (hw : ℕ) : ProcExit :=
  match driver2_main args hw with
  | .usageError => .exited 1
  | .parseAbort => .aborted
  | .threadCountError => .exited 1
  | .sizeError => .exited 1
  | .ranBenchmark => .exited 0

/-- Whether driver 2 reached `run_parallel`: only the `.ranBenchmark` path
(line 185) launches threads; every other path returns or aborts first. -/
def driver2_ran_parallel (args : List String) (hw : ℕ) : Bool :=
  match driver2_main args hw with
  | .ranBenchmark => true
  | _ => false

/-! ### Barrier-gated worker protocol (driver 2, `thread_worker`, lines 45–76)

Each worker is straight-line code; we record its externally visible events
in program order: barrier arrivals, gem5 statistics calls (present in the
GEM5 build), and the indices written by its DAXPY loop.  `std::barrier` is
standard-library code, not repository code; its release semantics is
modelled from the spec below (`BarrierOK`). -/

inductive WEvent where
  | arriveBarrier (phase : ℕ)
  | statsResetStart
  | write (i : ℕ)
  | statsStopDump
deriving DecidableEq

/-- The indices written by thread `tid`, in loop order. -/
def writesOf (N T tid : ℕ) : List WEvent :=
  (List.range' (start_idx N T tid)
    (end_idx N T tid - start_idx N T tid)).map WEvent.write

/-- Program-order trace of `thread_worker(thread_id)`: first
`thread_barrier.arrive_and_wait()`; then (thread 0 only)
`m5_dump_reset_stats`; then the DAXPY loop over the thread's partition;
then the second `arrive_and_wait()`; then (thread 0 only) `m5_dump_stats`. -/
def workerTrace (N T tid : ℕ) : List WEvent :=
  [WEvent.arriveBarrier 0] ++
  (if tid = 0 then [WEvent.statsResetStart] else []) ++
  writesOf N T tid ++
  [WEvent.arriveBarrier 1] ++
  (if tid = 0 then [WEvent.statsStopDump] else [])

/-- A whole-run schedule: a sequence of (thread id, event) pairs whose
projection onto each thread id is exactly that thread's program-order
trace (threads may interleave arbitrarily otherwise). -/
def IsInterleaving (N T : ℕ) (l : List (ℕ × WEvent)) : Prop :=
  (∀ p ∈ l, p.1 < T) ∧
  ∀ t, t < T →
    ((l.filter fun p => p.1 == t).map Prod.snd) = workerTrace N T t

/-- Thread `t` has arrived at barrier `p` strictly before position `j`. -/
def arrivedBy (l : List (ℕ × WEvent)) (j t p : ℕ) : Prop :=
  (t, WEvent.arriveBarrier p) ∈ l.take j

instance (l : List (ℕ × WEvent)) (j t p : ℕ) : Decidable (arrivedBy l j t p) :=
  List.instDecidableMemOfLawfulBEq _ _

/-- Modelled from the spec: an N-party barrier releases all parties only
when all N have arrived; no party proceeds past a barrier point until every
other party reaches it.  A schedule obeys the barriers when any event owned
by a thread that has already crossed barrier `p` is preceded by every
thread's arrival at barrier `p`. -/
def BarrierOK (T : ℕ) (l : List (ℕ × WEvent)) : Prop :=
  ∀ j, j < l.length → ∀ t, t < T → ∀ p, p < 2 →
    (l[j]?).map Prod.fst = some t → arrivedBy l j t p →
    ∀ u, u < T → arrivedBy l j u p

instance (T : ℕ) (l : List (ℕ × WEvent)) : Decidable (BarrierOK T l) :=
  decidable_of_iff
    (∀ j, j < l.length → ∀ t, t < T →
      (l[j]?).map Prod.fst = some t →
      ((arrivedBy l j t 0 → ∀ u, u < T → arrivedBy l j u 0) ∧
       (arrivedBy l j t 1 → ∀ u, u < T → arrivedBy l j u 1)))
    (by
      unfold BarrierOK
      constructor
      · intro h j hj t ht p hp hfst harr u hu
        rcases (by omega : p = 0 ∨ p = 1) with rfl | rfl
        · exact (h j hj t ht hfst).1 harr u hu
        · exact (h j hj t ht hfst).2 harr u hu
      · intro h j hj t ht hfst
        exact ⟨fun harr u hu => h j hj t ht 0 (by omega) hfst harr u hu,
          fun harr u hu => h j hj t ht 1 (by omega) hfst harr u hu⟩)

/-- A concrete barrier-respecting schedule of two workers over a length-2
vector, used to evaluate `mtd_barrier_protocol` on real data. -/
def exampleSchedule : List (ℕ × WEvent) :=
  [(0, WEvent.arriveBarrier 0), (1, WEvent.arriveBarrier 0),
   (0, WEvent.statsResetStart), (0, WEvent.write 0), (1, WEvent.write 1),
   (0, WEvent.arriveBarrier 1), (1, WEvent.arriveBarrier 1),
   (0, WEvent.statsStopDump)]

/-! ### Pointwise characterization of the kernels -/

theorem daxpy_thread_length (alpha : ℚ) (x : List ℚ) (s e : ℕ) (y : List ℚ) :
    (daxpy_thread alpha x s e y).length = y.length := by
  unfold daxpy_thread
  generalize e - s = n
  induction n generalizing s y with
  | zero => rfl
  | succ n ih =>
      rw [List.range'_succ, List.foldl_cons, ih (s + 1) _, List.length_set]

theorem daxpy_thread_getD (alpha : ℚ) (x : List ℚ) (s e : ℕ) (y : List ℚ)
    (j : ℕ) (hj : j < y.length) :
    (daxpy_thread alpha x s e y).getD j 0 =
      if s ≤ j ∧ j < e then alpha * x.getD j 0 + y.getD j 0 else y.getD j 0 := by
  have key : ∀ n s (y : List ℚ) (j : ℕ), j < y.length →
      ((List.range' s n).foldl
        (fun ys i => ys.set i (alpha * x.getD i 0 + ys.getD i 0)) y).getD j 0 =
      if s ≤ j ∧ j < s + n then alpha * x.getD j 0 + y.getD j 0
      else y.getD j 0 := by
    intro n
    induction n with
    | zero =>
        intro s y j hj
        simp only [List.range'_zero, List.foldl_nil]
        rw [if_neg (by omega)]
    | succ n ih =>
        intro s y j hj
        rw [List.range'_succ, List.foldl_cons]
        have hlen : j < (y.set s (alpha * x.getD s 0 + y.getD s 0)).length := by
          simpa using hj
        rw [ih (s + 1) _ j hlen]
        by_cases hjs : j = s
        · subst hjs
          have hns : ¬ (j + 1 ≤ j ∧ j < j + 1 + n) := by omega
          have hys : j ≤ j ∧ j < j + (n + 1) := by omega
          simp only [hns, if_false, hys, if_true]
          have h1 : (y.set j (alpha * x.getD j 0 + y.getD j 0)).getD j 0 =
              alpha * x.getD j 0 + y.getD j 0 := by
            rw [List.getD_eq_getElem _ _ (by simpa using hj)]
            exact List.getElem_set_self _
          exact h1
        · have hset : (y.set s (alpha * x.getD s 0 + y.getD s 0)).getD j 0 =
              y.getD j 0 := by
            rw [List.getD_eq_getElem _ _ (by simpa using hj),
              List.getD_eq_getElem _ _ hj]
            exact List.getElem_set_ne (fun h => hjs h.symm) _
          rw [hset]
          by_cases hin : s + 1 ≤ j ∧ j < s + 1 + n
          · have : s ≤ j ∧ j < s + (n + 1) := by omega
            simp [hin, this]
          · have : ¬ (s ≤ j ∧ j < s + (n + 1)) := by omega
            simp [hin, this]
  unfold daxpy_thread
  rcases le_or_lt s e with hse | hse
  · have : s + (e - s) = e := by omega
    rw [key (e - s) s y j hj, this]
  · have h0 : e - s = 0 := by omega
    have : ¬ (s ≤ j ∧ j < e) := by omega
    rw [h0, key 0 s y j hj]
    simp [this]

/-! ### Partition arithmetic -/

theorem start_idx_zero (N T : ℕ) : start_idx N T 0 = 0 := by
  simp [start_idx]

theorem end_idx_last (N T : ℕ) : end_idx N T (T - 1) = N := by
  simp [end_idx]

theorem end_idx_eq_start_idx_succ (N T t : ℕ) (h : t + 1 < T) :
    end_idx N T t = start_idx N T (t + 1) := by
  unfold end_idx start_idx
  rw [if_neg (by omega)]

theorem start_idx_le_end_idx (N T t : ℕ) (ht : t < T) :
    start_idx N T t ≤ end_idx N T t := by
  unfold start_idx end_idx
  by_cases hlast : t = T - 1
  · rw [if_pos hlast]
    subst hlast
    calc (T - 1) * chunk_size N T ≤ T * chunk_size N T :=
          Nat.mul_le_mul_right _ (by omega)
      _ = chunk_size N T * T := Nat.mul_comm _ _
      _ ≤ N := Nat.div_mul_le_self N T
  · rw [if_neg hlast]
    exact Nat.mul_le_mul_right _ (by omega)

theorem end_idx_le_start_idx_of_lt (N T t u : ℕ) (htu : t < u) (hu : u < T) :
    end_idx N T t ≤ start_idx N T u := by
  unfold end_idx start_idx
  rw [if_neg (by omega)]
  exact Nat.mul_le_mul_right _ (by omega)

theorem end_idx_le (N T t : ℕ) (hT : 1 ≤ T) (ht : t < T) : end_idx N T t ≤ N := by
  by_cases hlast : t = T - 1
  · subst hlast
    rw [end_idx_last]
  · calc end_idx N T t ≤ start_idx N T (T - 1) :=
        end_idx_le_start_idx_of_lt N T t (T - 1) (by omega) (by omega)
    _ ≤ end_idx N T (T - 1) := start_idx_le_end_idx N T (T - 1) (by omega)
    _ = N := end_idx_last N T

theorem partition_coverage (N T i : ℕ) (hT : 1 ≤ T) (hi : i < N) :
    ∃ t, t < T ∧ start_idx N T t ≤ i ∧ i < end_idx N T t := by
  by_cases hc : chunk_size N T = 0
  · refine ⟨T - 1, by omega, ?_, ?_⟩
    · unfold start_idx
      rw [hc]
      simp
    · rw [end_idx_last]
      exact hi
  · by_cases hq : i / chunk_size N T < T - 1
    · refine ⟨i / chunk_size N T, by omega, ?_, ?_⟩
      · unfold start_idx
        rw [Nat.mul_comm]
        exact Nat.mul_div_le i (chunk_size N T)
      · unfold end_idx
        rw [if_neg (by omega), Nat.succ_mul]
        have hmod : i % chunk_size N T < chunk_size N T :=
          Nat.mod_lt _ (by omega)
        have hdm : chunk_size N T * (i / chunk_size N T) + i % chunk_size N T = i :=
          Nat.div_add_mod i (chunk_size N T)
        have hcm : chunk_size N T * (i / chunk_size N T) =
            i / chunk_size N T * chunk_size N T := Nat.mul_comm _ _
        omega
    · refine ⟨T - 1, by omega, ?_, ?_⟩
      · unfold start_idx
        have h1 : (T - 1) * chunk_size N T ≤ i / chunk_size N T * chunk_size N T :=
          Nat.mul_le_mul_right _ (by omega)
        have h2 : i / chunk_size N T * chunk_size N T ≤ i := by
          rw [Nat.mul_comm]
          exact Nat.mul_div_le i (chunk_size N T)
        omega
      · rw [end_idx_last]
        exact hi

theorem partition_disjoint (N T t u i : ℕ) (ht : t < T) (hu : u < T) (htu : t ≠ u) :
    ¬ ((start_idx N T t ≤ i ∧ i < end_idx N T t) ∧
       (start_idx N T u ≤ i ∧ i < end_idx N T u)) := by
  rintro ⟨⟨hts, hte⟩, hus, hue⟩
  rcases Nat.lt_or_ge t u with h | h
  · have := end_idx_le_start_idx_of_lt N T t u h hu
    omega
  · have htu' : u < t := by omega
    have := end_idx_le_start_idx_of_lt N T u t htu' ht
    omega

/-! ### The multithreaded fold computes the full DAXPY -/

theorem run_multithreaded_fold_inv (alpha : ℚ) (x y : List ℚ) (N T : ℕ)
    (hT : 1 ≤ T) : ∀ k, k ≤ T →
    (((List.range k).foldl
        (fun ys t => daxpy_thread alpha x (start_idx N T t) (end_idx N T t) ys)
        y).length = y.length ∧
     ∀ j, j < y.length →
      ((List.range k).foldl
        (fun ys t => daxpy_thread alpha x (start_idx N T t) (end_idx N T t) ys)
        y).getD j 0 =
        if j < (if k = T then N else k * chunk_size N T) then
          alpha * x.getD j 0 + y.getD j 0
        else y.getD j 0) := by
  intro k
  induction k with
  | zero =>
      intro _
      refine ⟨rfl, fun j hj => ?_⟩
      simp only [List.range_zero, List.foldl_nil]
      rw [if_neg (by omega : ¬ (0 = T)), Nat.zero_mul, if_neg (by omega)]
  | succ k ih =>
      intro hk1
      obtain ⟨ihlen, ihval⟩ := ih (by omega)
      rw [List.range_succ, List.foldl_append, List.foldl_cons, List.foldl_nil]
      constructor
      · rw [daxpy_thread_length, ihlen]
      · intro j hj
        have hjlen : j < ((List.range k).foldl
            (fun ys t => daxpy_thread alpha x (start_idx N T t) (end_idx N T t) ys)
            y).length := by rw [ihlen]; exact hj
        rw [daxpy_thread_getD alpha x _ _ _ j hjlen, ihval j hj]
        have hkT : k < T := by omega
        have hstart : start_idx N T k = k * chunk_size N T := rfl
        have hend : end_idx N T k =
            if k + 1 = T then N else (k + 1) * chunk_size N T := by
          unfold end_idx
          by_cases h : k + 1 = T
          · rw [if_pos (by omega), if_pos h]
          · rw [if_neg (by omega), if_neg h]
        have hse : k * chunk_size N T ≤ end_idx N T k := by
          rw [← hstart]
          exact start_idx_le_end_idx N T k hkT
        rw [if_neg (by omega : ¬ (k = T)), ← hend, hstart]
        by_cases hlo : j < k * chunk_size N T
        · have h1 : ¬ (k * chunk_size N T ≤ j ∧ j < end_idx N T k) := by omega
          have h2 : j < end_idx N T k := by omega
          simp [h1, hlo, h2]
        · by_cases hhi : j < end_idx N T k
          · have h1 : k * chunk_size N T ≤ j ∧ j < end_idx N T k :=
              ⟨by omega, hhi⟩
            simp [h1, hlo, hhi]
          · have h1 : ¬ (k * chunk_size N T ≤ j ∧ j < end_idx N T k) := by omega
            simp [h1, hlo, hhi]

theorem run_multithreaded_length (alpha : ℚ) (x y : List ℚ) (N T : ℕ)
    (hT : 1 ≤ T) : (run_multithreaded alpha x y N T).length = y.length :=
  (run_multithreaded_fold_inv alpha x y N T hT T (le_refl T)).1

theorem run_multithreaded_getD (alpha : ℚ) (x y : List ℚ) (N T : ℕ)
    (hT : 1 ≤ T) (j : ℕ) (hj : j < y.length) (hjN : j < N) :
    (run_multithreaded alpha x y N T).getD j 0 =
      alpha * x.getD j 0 + y.getD j 0 := by
  have h := (run_multithreaded_fold_inv alpha x y N T hT T (le_refl T)).2 j hj
  unfold run_multithreaded
  rw [h, if_pos]
  rw [if_pos rfl]
  exact hjN

theorem sequential_daxpy_length (alpha : ℚ) (x : List ℚ) (N : ℕ) (y : List ℚ) :
    (sequential_daxpy alpha x N y).length = y.length :=
  daxpy_thread_length alpha x 0 N y

theorem sequential_daxpy_getD (alpha : ℚ) (x : List ℚ) (N : ℕ) (y : List ℚ)
    (j : ℕ) (hj : j < y.length) (hjN : j < N) :
    (sequential_daxpy alpha x N y).getD j 0 =
      alpha * x.getD j 0 + y.getD j 0 := by
  unfold sequential_daxpy
  rw [daxpy_thread_getD alpha x 0 N y j hj, if_pos ⟨Nat.zero_le j, hjN⟩]

theorem run_multithreaded_eq_sequential (alpha : ℚ) (x y : List ℚ) (N T : ℕ)
    (hT : 1 ≤ T) (hy : y.length = N) :
    run_multithreaded alpha x y N T = sequential_daxpy alpha x N y := by
  apply List.ext_getElem
  · rw [run_multithreaded_length alpha x y N T hT, sequential_daxpy_length]
  · intro n h1 h2
    have hn : n < y.length := by
      rw [run_multithreaded_length alpha x y N T hT] at h1
      exact h1
    have hnN : n < N := by omega
    rw [← List.getD_eq_getElem _ 0 h1, ← List.getD_eq_getElem _ 0 h2,
      run_multithreaded_getD alpha x y N T hT n hn hnN,
      sequential_daxpy_getD alpha x N y n hn hnN]

/-! ### Fold lemmas for the verifier -/

theorem verify_fold_zero (par yseq : List ℚ) : verify_fold par yseq 0 = (true, 0) :=
  rfl

theorem verify_fold_succ (par yseq : List ℚ) (n : ℕ) :
    verify_fold par yseq (n + 1) =
      ((if |par.getD n 0 - yseq.getD n 0| > tol then false
        else (verify_fold par yseq n).1),
       max (verify_fold par yseq n).2 |par.getD n 0 - yseq.getD n 0|) := by
  unfold verify_fold
  rw [List.range_succ, List.foldl_append, List.foldl_cons, List.foldl_nil]

theorem verify_fold_correct_iff (par yseq : List ℚ) (n : ℕ) :
    (verify_fold par yseq n).1 = true ↔
      ∀ i, i < n → |par.getD i 0 - yseq.getD i 0| ≤ tol := by
  induction n with
  | zero =>
      rw [verify_fold_zero]
      exact ⟨fun _ i hi => absurd hi (Nat.not_lt_zero i), fun _ => rfl⟩
  | succ n ih =>
      rw [verify_fold_succ]
      by_cases h : |par.getD n 0 - yseq.getD n 0| > tol
      · rw [if_pos h]
        simp only [Bool.false_eq_true, false_iff]
        intro hall
        exact absurd (hall n (by omega)) (not_le.mpr h)
      · rw [if_neg h]
        simp only
        rw [ih]
        constructor
        · intro hall i hi
          by_cases hin : i = n
          · subst hin; exact not_lt.mp h
          · exact hall i (by omega)
        · intro hall i hi
          exact hall i (by omega)

theorem verify_fold_max_le_iff (par yseq : List ℚ) (n : ℕ) (c : ℚ) :
    (verify_fold par yseq n).2 ≤ c ↔
      0 ≤ c ∧ ∀ i, i < n → |par.getD i 0 - yseq.getD i 0| ≤ c := by
  induction n with
  | zero =>
      rw [verify_fold_zero]
      constructor
      · intro h
        exact ⟨h, fun i hi => absurd hi (Nat.not_lt_zero i)⟩
      · intro h
        exact h.1
  | succ n ih =>
      rw [verify_fold_succ]
      simp only [max_le_iff, ih]
      constructor
      · rintro ⟨⟨h0, hall⟩, hn⟩
        refine ⟨h0, fun i hi => ?_⟩
        by_cases hin : i = n
        · subst hin; exact hn
        · exact hall i (by omega)
      · rintro ⟨h0, hall⟩
        exact ⟨⟨h0, fun i hi => hall i (by omega)⟩, hall n (by omega)⟩

theorem verify_fold_max_nonneg (par yseq : List ℚ) (n : ℕ) :
    0 ≤ (verify_fold par yseq n).2 :=
  ((verify_fold_max_le_iff par yseq n _).mp (le_refl _)).1

theorem verify_fold_passed_iff (par yseq : List ℚ) (n : ℕ) :
    (verify_fold par yseq n).1 = true ↔ (verify_fold par yseq n).2 ≤ tol := by
  rw [verify_fold_correct_iff, verify_fold_max_le_iff]
  constructor
  · intro h
    exact ⟨by norm_num [tol], h⟩
  · intro h
    exact h.2

theorem verify_fold_self (l : List ℚ) (n : ℕ) :
    verify_fold l l n = (true, 0) := by
  induction n with
  | zero => exact verify_fold_zero l l
  | succ n ih =>
      rw [verify_fold_succ, ih]
      have h : |l.getD n 0 - l.getD n 0| = 0 := by
        rw [sub_self, abs_zero]
      rw [h]
      rw [if_neg (by norm_num [tol])]
      simp

/-! ### Generic position lemmas -/

theorem mem_of_getElem?_some {α : Type} (l : List α) (m : ℕ) (a : α)
    (h : l[m]? = some a) : a ∈ l := by
  obtain ⟨hlt, hg⟩ := List.getElem?_eq_some.mp h
  exact hg ▸ List.getElem_mem hlt

theorem head_mem_take_of_getElem (a e : WEvent) (rest : List WEvent) (m : ℕ)
    (hne : e ≠ a) (h : (a :: rest)[m]? = some e) : a ∈ (a :: rest).take m := by
  cases m with
  | zero =>
      exfalso
      apply hne
      rw [List.getElem?_cons_zero] at h
      exact (Option.some_inj.mp h).symm
  | succ m =>
      rw [List.take_succ_cons]
      exact List.mem_cons_self a _

theorem getElem_lt_of_not_mem_right (A C : List WEvent) (e : WEvent) (m : ℕ)
    (hC : e ∉ C) (h : (A ++ C)[m]? = some e) : m < A.length := by
  by_contra hge
  push_neg at hge
  rw [List.getElem?_append_right hge] at h
  exact hC (mem_of_getElem?_some C _ e h)

theorem last_occ (B : List WEvent) (e : WEvent) (m : ℕ) (hB : e ∉ B)
    (h : (B ++ [e])[m]? = some e) : m = B.length := by
  rcases Nat.lt_or_ge m B.length with hlt | hge
  · exfalso
    rw [List.getElem?_append_left hlt] at h
    exact hB (mem_of_getElem?_some B _ e h)
  · rw [List.getElem?_append_right hge] at h
    rcases hmb : m - B.length with _ | k
    · omega
    · rw [hmb] at h
      simp at h

theorem take_append_of_le {α : Type} (A C : List α) (m : ℕ)
    (hm : m ≤ A.length) : (A ++ C).take m = A.take m := by
  rw [List.take_append_eq_append_take, Nat.sub_eq_zero_of_le hm,
    List.take_zero, List.append_nil]

/-! ### Relating schedule positions to trace occurrences -/

theorem mem_take_pair_iff (l : List (ℕ × WEvent)) (t : ℕ) (a : WEvent)
    (j : ℕ) :
    (t, a) ∈ l.take j ↔
      a ∈ ((l.take j).filter fun p => p.1 == t).map Prod.snd := by
  constructor
  · intro h
    exact List.mem_map.mpr ⟨(t, a), List.mem_filter.mpr ⟨h, by simp⟩, rfl⟩
  · intro h
    obtain ⟨p, hp, hsnd⟩ := List.mem_map.mp h
    obtain ⟨hmem, hfst⟩ := List.mem_filter.mp hp
    obtain ⟨p1, p2⟩ := p
    have h1 : p1 = t := by simpa using hfst
    have h2 : p2 = a := hsnd
    rw [← h1, ← h2]
    exact hmem

theorem proj_occurrence (l : List (ℕ × WEvent)) (t : ℕ) (e : WEvent)
    (j : ℕ) (tr : List WEvent)
    (hproj : ((l.filter fun p => p.1 == t).map Prod.snd) = tr)
    (hj : l[j]? = some (t, e)) :
    ∃ m, tr[m]? = some e ∧
      tr.take m = ((l.take j).filter fun p => p.1 == t).map Prod.snd := by
  obtain ⟨hjlt, hjget⟩ := List.getElem?_eq_some.mp hj
  have hsplit :
      ((l.take j).filter fun p => p.1 == t).map Prod.snd ++
        ((l.drop j).filter fun p => p.1 == t).map Prod.snd = tr := by
    rw [← List.map_append, ← List.filter_append, List.take_append_drop]
    exact hproj
  have hdropj : l.drop j = (t, e) :: l.drop (j + 1) := by
    rw [List.drop_eq_getElem_cons hjlt, hjget]
  have hsuf : ((l.drop j).filter fun p => p.1 == t).map Prod.snd =
      e :: ((l.drop (j + 1)).filter fun p => p.1 == t).map Prod.snd := by
    rw [hdropj, List.filter_cons, if_pos (by simp)]
    rfl
  refine ⟨(((l.take j).filter fun p => p.1 == t).map Prod.snd).length, ?_, ?_⟩
  · rw [← hsplit, List.getElem?_append_right (le_refl _), Nat.sub_self, hsuf]
    exact List.getElem?_cons_zero
  · rw [← hsplit, List.take_left]

/-! ### Occurrence facts about a worker's program-order trace -/

theorem workerTrace_cons (N T tid : ℕ) :
    workerTrace N T tid = WEvent.arriveBarrier 0 ::
      ((if tid = 0 then [WEvent.statsResetStart] else []) ++
        (writesOf N T tid ++
          ([WEvent.arriveBarrier 1] ++
            (if tid = 0 then [WEvent.statsStopDump] else [])))) := by
  simp [workerTrace]

theorem workerTrace_head (N T tid : ℕ) :
    (workerTrace N T tid).head? = some (WEvent.arriveBarrier 0) := by
  rw [workerTrace_cons]
  rfl

theorem workerTrace_before_arrive0 (N T tid m : ℕ) (e : WEvent)
    (hne : e ≠ WEvent.arriveBarrier 0)
    (h : (workerTrace N T tid)[m]? = some e) :
    WEvent.arriveBarrier 0 ∈ (workerTrace N T tid).take m := by
  rw [workerTrace_cons] at h ⊢
  exact head_mem_take_of_getElem _ e _ m hne h

theorem workerTrace_write_before_arrive1 (N T tid m i : ℕ)
    (h : (workerTrace N T tid)[m]? = some (WEvent.write i)) :
    WEvent.arriveBarrier 1 ∉ (workerTrace N T tid).take m := by
  intro hmem
  have hA : workerTrace N T tid =
      (WEvent.arriveBarrier 0 ::
        ((if tid = 0 then [WEvent.statsResetStart] else []) ++
          writesOf N T tid)) ++
      ([WEvent.arriveBarrier 1] ++
        (if tid = 0 then [WEvent.statsStopDump] else [])) := by
    simp [workerTrace]
  have hC : WEvent.write i ∉
      [WEvent.arriveBarrier 1] ++
        (if tid = 0 then [WEvent.statsStopDump] else []) := by
    by_cases h0 : tid = 0 <;> simp [h0]
  have hm : m < (WEvent.arriveBarrier 0 ::
      ((if tid = 0 then [WEvent.statsResetStart] else []) ++
        writesOf N T tid)).length := by
    apply getElem_lt_of_not_mem_right _ _ _ m hC
    rw [← hA]
    exact h
  have htake := take_append_of_le
    (WEvent.arriveBarrier 0 ::
      ((if tid = 0 then [WEvent.statsResetStart] else []) ++ writesOf N T tid))
    ([WEvent.arriveBarrier 1] ++
      (if tid = 0 then [WEvent.statsStopDump] else [])) m (Nat.le_of_lt hm)
  rw [hA, htake] at hmem
  have hin := List.mem_of_mem_take hmem
  by_cases h0 : tid = 0 <;> simp [h0, writesOf] at hin

theorem workerTrace_reset_before_arrive1 (N T tid m : ℕ)
    (h : (workerTrace N T tid)[m]? = some WEvent.statsResetStart) :
    WEvent.arriveBarrier 1 ∉ (workerTrace N T tid).take m := by
  intro hmem
  have hA : workerTrace N T tid =
      (WEvent.arriveBarrier 0 ::
        (if tid = 0 then [WEvent.statsResetStart] else [])) ++
      (writesOf N T tid ++
        ([WEvent.arriveBarrier 1] ++
          (if tid = 0 then [WEvent.statsStopDump] else []))) := by
    simp [workerTrace]
  have hC : WEvent.statsResetStart ∉
      writesOf N T tid ++
        ([WEvent.arriveBarrier 1] ++
          (if tid = 0 then [WEvent.statsStopDump] else [])) := by
    by_cases h0 : tid = 0 <;> simp [h0, writesOf]
  have hm : m < (WEvent.arriveBarrier 0 ::
      (if tid = 0 then [WEvent.statsResetStart] else [])).length := by
    apply getElem_lt_of_not_mem_right _ _ _ m hC
    rw [← hA]
    exact h
  have htake := take_append_of_le
    (WEvent.arriveBarrier 0 ::
      (if tid = 0 then [WEvent.statsResetStart] else []))
    (writesOf N T tid ++
      ([WEvent.arriveBarrier 1] ++
        (if tid = 0 then [WEvent.statsStopDump] else []))) m (Nat.le_of_lt hm)
  rw [hA, htake] at hmem
  have hin := List.mem_of_mem_take hmem
  by_cases h0 : tid = 0 <;> simp [h0] at hin

theorem workerTrace_reset_tid (N T tid : ℕ)
    (h : WEvent.statsResetStart ∈ workerTrace N T tid) : tid = 0 := by
  by_contra h0
  simp [workerTrace, h0, writesOf] at h

theorem workerTrace_dump_tid (N T tid : ℕ)
    (h : WEvent.statsStopDump ∈ workerTrace N T tid) : tid = 0 := by
  by_contra h0
  simp [workerTrace, h0, writesOf] at h

theorem workerTrace_dump_after_arrive1 (N T tid m : ℕ)
    (h : (workerTrace N T tid)[m]? = some WEvent.statsStopDump) :
    WEvent.arriveBarrier 1 ∈ (workerTrace N T tid).take m := by
  have h0 : tid = 0 :=
    workerTrace_dump_tid N T tid (mem_of_getElem?_some _ m _ h)
  subst h0
  have hA : workerTrace N T 0 =
      (WEvent.arriveBarrier 0 :: WEvent.statsResetStart ::
        (writesOf N T 0 ++ [WEvent.arriveBarrier 1])) ++
      [WEvent.statsStopDump] := by
    simp [workerTrace]
  have hB : WEvent.statsStopDump ∉
      WEvent.arriveBarrier 0 :: WEvent.statsResetStart ::
        (writesOf N T 0 ++ [WEvent.arriveBarrier 1]) := by
    simp [writesOf]
  have hm : m = (WEvent.arriveBarrier 0 :: WEvent.statsResetStart ::
      (writesOf N T 0 ++ [WEvent.arriveBarrier 1])).length := by
    apply last_occ _ _ m hB
    rw [← hA]
    exact h
  rw [hA, hm, List.take_left]
  simp

theorem writesOf_count_eq_zero (N T tid : ℕ) (e : WEvent)
    (he : ∀ i, e ≠ WEvent.write i) : (writesOf N T tid).count e = 0 := by
  rw [List.count_eq_zero]
  intro hmem
  obtain ⟨i, _, hi⟩ := List.mem_map.mp hmem
  exact he i hi.symm

theorem workerTrace_counts (N T tid : ℕ) :
    (workerTrace N T tid).count (WEvent.arriveBarrier 0) = 1 ∧
    (workerTrace N T tid).count (WEvent.arriveBarrier 1) = 1 ∧
    (workerTrace N T tid).count WEvent.statsResetStart =
      (if tid = 0 then 1 else 0) ∧
    (workerTrace N T tid).count WEvent.statsStopDump =
      (if tid = 0 then 1 else 0) := by
  by_cases ht : tid = 0
  · subst ht
    have h0 := writesOf_count_eq_zero N T 0 (WEvent.arriveBarrier 0)
      (fun i h => by cases h)
    have h1 := writesOf_count_eq_zero N T 0 (WEvent.arriveBarrier 1)
      (fun i h => by cases h)
    have h2 := writesOf_count_eq_zero N T 0 WEvent.statsResetStart
      (fun i h => by cases h)
    have h3 := writesOf_count_eq_zero N T 0 WEvent.statsStopDump
      (fun i h => by cases h)
    simp [workerTrace, List.count_append, List.count_cons, List.count_nil,
      h0, h1, h2, h3]
  · have h0 := writesOf_count_eq_zero N T tid (WEvent.arriveBarrier 0)
      (fun i h => by cases h)
    have h1 := writesOf_count_eq_zero N T tid (WEvent.arriveBarrier 1)
      (fun i h => by cases h)
    have h2 := writesOf_count_eq_zero N T tid WEvent.statsResetStart
      (fun i h => by cases h)
    have h3 := writesOf_count_eq_zero N T tid WEvent.statsStopDump
      (fun i h => by cases h)
    simp [workerTrace, ht, List.count_append, List.count_cons, List.count_nil,
      h0, h1, h2, h3]

/-! ### Driver 1 initialization lemmas and output closed form -/

theorem initX_length (n : ℕ) : (initX n).length = n := by
  simp [initX]

theorem initY_length (n : ℕ) : (initY n).length = n := by
  simp [initY]

theorem initX_getD (n i : ℕ) (h : i < n) :
    (initX n).getD i 0 = (i : ℚ) + 1 := by
  rw [List.getD_eq_getElem _ _ (by rw [initX_length]; exact h)]
  simp [initX, List.getElem_map]

theorem initY_getD (n i : ℕ) (h : i < n) :
    (initY n).getD i 0 = ((n - i : ℕ) : ℚ) := by
  rw [List.getD_eq_getElem _ _ (by rw [initY_length]; exact h)]
  simp [initY, List.getElem_map]

theorem driver1_compute_eq (N T : ℕ) (alpha : ℚ) :
    driver1_compute N T alpha =
      (List.range N).map fun i : ℕ => alpha * ((i : ℚ) + 1) + ((N - i : ℕ) : ℚ) := by
  have hseq : sequential_daxpy alpha (initX N) N (initY N) =
      (List.range N).map fun i : ℕ => alpha * ((i : ℚ) + 1) + ((N - i : ℕ) : ℚ) := by
    apply List.ext_getElem
    · rw [sequential_daxpy_length, initY_length]
      simp
    · intro n h1 h2
      have hn : n < N := by
        rw [sequential_daxpy_length, initY_length] at h1
        exact h1
      rw [← List.getD_eq_getElem _ 0 h1,
        sequential_daxpy_getD alpha (initX N) N (initY N) n
          (by rw [initY_length]; exact hn) hn,
        initX_getD N n hn, initY_getD N n hn]
      simp
  unfold driver1_compute
  by_cases hT : T > 1
  · rw [if_pos hT,
      run_multithreaded_eq_sequential alpha (initX N) (initY N) N T
        (by omega) (initY_length N)]
    exact hseq
  · rw [if_neg hT]
    exact hseq

/-! ## Claim theorems -/

/-- C1 counterexample: at the claim's own example (N=4, alpha=2, x=[1,2,3,4],
y=[10,20,30,40], T=4) the code produces y[3] = 2*4 + 40 = 48, not the
claimed 44, so the stated expected vector [12,24,36,44] is wrong. -/
theorem daxpy_example_44_counterexample :
    (run_multithreaded 2 [1, 2, 3, 4] [10, 20, 30, 40] 4 4).getD 3 0 = 48 ∧
    (48 : ℚ) ≠ 44 := by
  constructor
  · rw [run_multithreaded_getD 2 [1, 2, 3, 4] [10, 20, 30, 40] 4 4
      (by norm_num) 3 (by norm_num) (by norm_num)]
    norm_num
  · norm_num

/-- C1 (amended): for every vector length N ≥ 1, thread count T ≥ 1, scalar
alpha, and vectors x, y of length N, after the compute phase (the
multithreaded fold over all partitions, or the single-threaded full pass)
y[i] = alpha*x[i] + y_before[i] for every i < N; in particular, for N=4,
alpha=2, x=[1,2,3,4], y=[10,20,30,40], the result is [12,24,36,48] for
T=1, T=4, and the single-threaded path (the claim's stated 44 at index 3
is corrected to 2*4+40 = 48). -/
theorem daxpy_compute_phase_correct (N T : ℕ) (alpha : ℚ) (x y : List ℚ)
    (_hN : 1 ≤ N) (hT : 1 ≤ T) (_hx : x.length = N) (hy : y.length = N) :
    (∀ i, i < N → (run_multithreaded alpha x y N T).getD i 0 =
        alpha * x.getD i 0 + y.getD i 0) ∧
    (∀ i, i < N → (run_single_threaded alpha x y N).getD i 0 =
        alpha * x.getD i 0 + y.getD i 0) ∧
    run_multithreaded 2 [1, 2, 3, 4] [10, 20, 30, 40] 4 4 = [12, 24, 36, 48] ∧
    run_multithreaded 2 [1, 2, 3, 4] [10, 20, 30, 40] 4 1 = [12, 24, 36, 48] ∧
    run_single_threaded 2 [1, 2, 3, 4] [10, 20, 30, 40] 4 = [12, 24, 36, 48] := by
  have hconc : sequential_daxpy (2 : ℚ) [1, 2, 3, 4] 4 [10, 20, 30, 40] =
      [12, 24, 36, 48] := by
    apply List.ext_getElem
    · rw [sequential_daxpy_length]
      rfl
    · intro n h1 h2
      have hn : n < 4 := by simpa using h2
      rw [← List.getD_eq_getElem _ 0 h1,
        sequential_daxpy_getD 2 [1, 2, 3, 4] 4 [10, 20, 30, 40] n
          (by simpa using hn) hn]
      interval_cases n <;> norm_num
  refine ⟨?_, ?_, ?_, ?_, ?_⟩
  · intro i hi
    exact run_multithreaded_getD alpha x y N T hT i (by omega) hi
  · intro i hi
    unfold run_single_threaded
    rw [daxpy_thread_getD alpha x 0 N y i (by omega),
      if_pos ⟨Nat.zero_le i, hi⟩]
  · rw [run_multithreaded_eq_sequential 2 [1, 2, 3, 4] [10, 20, 30, 40] 4 4
      (by norm_num) rfl]
    exact hconc
  · rw [run_multithreaded_eq_sequential 2 [1, 2, 3, 4] [10, 20, 30, 40] 4 1
      (by norm_num) rfl]
    exact hconc
  · exact hconc

/-- C1 witness at N=4, T=4, alpha=2, x=[1,2,3,4], y=[10,20,30,40]: the
pointwise invariant holds at index 0. -/
theorem daxpy_compute_phase_correct_witness :
    (run_multithreaded 2 [1, 2, 3, 4] [10, 20, 30, 40] 4 4).getD 0 0 =
      2 * ([1, 2, 3, 4] : List ℚ).getD 0 0 +
        ([10, 20, 30, 40] : List ℚ).getD 0 0 :=
  (daxpy_compute_phase_correct 4 4 2 [1, 2, 3, 4] [10, 20, 30, 40]
    (by norm_num) (by norm_num) rfl rfl).1 0 (by norm_num)

/-- C2: for every N ≥ 1 and T ≥ 1 the partitioner produces exactly T
half-open ranges with chunk = N / T, start_t = t*chunk and
end_t = (t+1)*chunk for t < T-1, end_{T-1} = N, start_0 = 0,
start_{t+1} = end_t; the ranges cover [0, N) exactly with no gaps and no
overlaps, and for T = 1 the single partition is [0, N). -/
theorem partitioner_correct (N T : ℕ) (_hN : 1 ≤ N) (hT : 1 ≤ T) :
    (partitions N T).length = T ∧
    chunk_size N T = N / T ∧
    (∀ t, t + 1 < T → start_idx N T t = t * chunk_size N T ∧
      end_idx N T t = (t + 1) * chunk_size N T) ∧
    end_idx N T (T - 1) = N ∧
    start_idx N T 0 = 0 ∧
    (∀ t, t + 1 < T → start_idx N T (t + 1) = end_idx N T t) ∧
    (∀ i, i < N → ∃ t, t < T ∧ start_idx N T t ≤ i ∧ i < end_idx N T t) ∧
    (∀ t i, t < T → start_idx N T t ≤ i → i < end_idx N T t → i < N) ∧
    (∀ t u, t < T → u < T → t ≠ u → ∀ i,
      ¬ ((start_idx N T t ≤ i ∧ i < end_idx N T t) ∧
         (start_idx N T u ≤ i ∧ i < end_idx N T u))) ∧
    (T = 1 → partitions N T = [(0, N)]) := by
  refine ⟨?_, rfl, ?_, end_idx_last N T, start_idx_zero N T, ?_, ?_, ?_, ?_, ?_⟩
  · simp [partitions]
  · intro t ht
    refine ⟨rfl, ?_⟩
    unfold end_idx
    rw [if_neg (by omega)]
  · intro t ht
    exact (end_idx_eq_start_idx_succ N T t ht).symm
  · intro i hi
    exact partition_coverage N T i hT hi
  · intro t i ht hs he
    exact lt_of_lt_of_le he (end_idx_le N T t hT ht)
  · intro t u ht hu htu i
    exact partition_disjoint N T t u i ht hu htu
  · intro h1
    subst h1
    simp [partitions, start_idx, end_idx, chunk_size,
      show List.range 1 = [0] from rfl]

/-- C2 witness at N=10, T=3: the partitioner produces exactly 3 ranges. -/
theorem partitioner_correct_witness : (partitions 10 3).length = 3 :=
  (partitioner_correct 10 3 (by norm_num) (by norm_num)).1

/-- C3: for every N, T ≥ 1, alpha, and vectors x, y of length N, the result
of applying the per-partition DAXPY update over all T partitions equals the
single sequential pass, the verifier's maximum per-element absolute
difference between them is at most 1e-10 (it is 0 in the exact model, and
the two programs perform the identical single multiply-add per element, so
this equality also holds in IEEE doubles), and for T=1 the partitioned
execution is exactly the sequential loop over [0, N). -/
theorem parallel_refines_sequential (N T : ℕ) (alpha : ℚ) (x y : List ℚ)
    (hT : 1 ≤ T) (hy : y.length = N) :
    run_multithreaded alpha x y N T = sequential_daxpy alpha x N y ∧
    (verify_fold (run_multithreaded alpha x y N T)
      (sequential_daxpy alpha x N y) N).2 ≤ tol ∧
    run_multithreaded alpha x y N 1 = daxpy_thread alpha x 0 N y := by
  have heq := run_multithreaded_eq_sequential alpha x y N T hT hy
  refine ⟨heq, ?_,
    run_multithreaded_eq_sequential alpha x y N 1 (by omega) hy⟩
  rw [heq, verify_fold_self]
  norm_num [tol]

/-- C3 witness at N=2, T=2, alpha=3, x=[1,2], y=[5,6]. -/
theorem parallel_refines_sequential_witness :
    run_multithreaded 3 [1, 2] [5, 6] 2 2 = sequential_daxpy 3 [1, 2] 2 [5, 6] :=
  (parallel_refines_sequential 2 2 3 [1, 2] [5, 6] (by norm_num) rfl).1

/-- C4: the verifier recomputes y_seq[i] = alpha*x[i] + y_orig[i] for all i,
returns PASS exactly when its reported maximum absolute error is at most
1e-10, and the reported max_error is the maximum of the per-element errors
|y_par[i] - y_seq[i]| (characterized as their least upper bound among
nonnegative bounds), reported identically whatever the verdict. -/
theorem verifier_verdict_spec (s : MTDState)
    (hy0 : s.y_original.length = s.vector_size) :
    ((verify_results s).1.passed = true ↔
      (verify_results s).1.max_error ≤ tol) ∧
    (∀ i, i < s.vector_size →
      (sequential_daxpy s.alpha s.x s.vector_size s.y_original).getD i 0 =
        s.alpha * s.x.getD i 0 + s.y_original.getD i 0) ∧
    (verify_results s).1.max_error =
      (verify_fold s.y
        (sequential_daxpy s.alpha s.x s.vector_size s.y_original)
        s.vector_size).2 ∧
    (∀ c : ℚ, (verify_results s).1.max_error ≤ c ↔
      (0 ≤ c ∧ ∀ i, i < s.vector_size →
        |s.y.getD i 0 -
          (sequential_daxpy s.alpha s.x s.vector_size
            s.y_original).getD i 0| ≤ c)) := by
  refine ⟨verify_fold_passed_iff s.y _ s.vector_size, ?_, rfl, ?_⟩
  · intro i hi
    exact sequential_daxpy_getD s.alpha s.x s.vector_size s.y_original i
      (by omega) hi
  · intro c
    exact verify_fold_max_le_iff s.y _ s.vector_size c

/-- C4 witness at a concrete state (N=2, alpha=2, x=[1,2], y_par=[9,9],
y_orig=[3,4]). -/
theorem verifier_verdict_spec_witness :
    (verify_results ⟨2, 2, [1, 2], [9, 9], [3, 4]⟩).1.passed = true ↔
      (verify_results ⟨2, 2, [1, 2], [9, 9], [3, 4]⟩).1.max_error ≤ tol :=
  (verifier_verdict_spec ⟨2, 2, [1, 2], [9, 9], [3, 4]⟩ rfl).1

/-- C5: after the verification pass the working y buffer again holds exactly
the parallel result (all other state is also untouched), and the printed
"First 10 results" are the first min(10, N) elements of the parallel
output, not of the sequential recomputation. -/
theorem verifier_restores_parallel_state (s : MTDState) :
    (verify_results s).2.y = s.y ∧
    (verify_results s).2.x = s.x ∧
    (verify_results s).2.y_original = s.y_original ∧
    (verify_results s).2.alpha = s.alpha ∧
    (verify_results s).2.vector_size = s.vector_size ∧
    (verify_results s).1.first_results = s.y.take (min 10 s.vector_size) :=
  ⟨rfl, rfl, rfl, rfl, rfl, rfl⟩

/-- C6: driver 2 returns exit code 1 whenever the positional argument count
differs from 3, and — when the three arguments parse — whenever num_threads
is outside [1, hardware_concurrency()] or vector_size = 0; in each case the
run ends before any parallel work starts. -/
theorem driver2_config_errors (args : List String) (hw : ℕ) :
    (args.length ≠ 3 →
      driver2_main args hw = Driver2Result.usageError ∧
      driver2_exit args hw = ProcExit.exited 1 ∧
      driver2_ran_parallel args hw = false) ∧
    (∀ vs : ℕ, ∀ nt : ℤ, ∀ a : ℚ, args.length = 3 →
      stoull (args.getD 0 "") = some vs →
      stoi (args.getD 1 "") = some nt →
      stod (args.getD 2 "") = some a →
      ((nt < 1 ∨ (hw : ℤ) < nt →
        driver2_main args hw = Driver2Result.threadCountError ∧
        driver2_exit args hw = ProcExit.exited 1 ∧
        driver2_ran_parallel args hw = false) ∧
       (1 ≤ nt → nt ≤ (hw : ℤ) → vs = 0 →
        driver2_main args hw = Driver2Result.sizeError ∧
        driver2_exit args hw = ProcExit.exited 1 ∧
        driver2_ran_parallel args hw = false))) := by
  constructor
  · intro hlen
    have hmain : driver2_main args hw = Driver2Result.usageError := by
      unfold driver2_main
      rw [if_pos hlen]
    refine ⟨hmain, ?_, ?_⟩
    · unfold driver2_exit
      rw [hmain]
    · unfold driver2_ran_parallel
      rw [hmain]
  · intro vs nt a hlen h1 h2 h3
    constructor
    · intro hrange
      have hmain : driver2_main args hw = Driver2Result.threadCountError := by
        unfold driver2_main
        rw [if_neg (by omega)]
        simp only [h1, h2, h3]
        rw [if_pos (by omega)]
      refine ⟨hmain, ?_, ?_⟩
      · unfold driver2_exit
        rw [hmain]
      · unfold driver2_ran_parallel
        rw [hmain]
    · intro hnt1 hnt2 hvs
      have hmain : driver2_main args hw = Driver2Result.sizeError := by
        unfold driver2_main
        rw [if_neg (by omega)]
        simp only [h1, h2, h3]
        rw [if_neg (by omega), if_pos hvs]
      refine ⟨hmain, ?_, ?_⟩
      · unfold driver2_exit
        rw [hmain]
      · unfold driver2_ran_parallel
        rw [hmain]

/-- C6 witness: `./prog 5 0 3` with 8 hardware threads is rejected for the
thread count 0 with exit code 1, before any parallel work. -/
theorem driver2_config_errors_witness :
    driver2_main ["5", "0", "3"] 8 = Driver2Result.threadCountError ∧
    driver2_exit ["5", "0", "3"] 8 = ProcExit.exited 1 ∧
    driver2_ran_parallel ["5", "0", "3"] 8 = false :=
  ((driver2_config_errors ["5", "0", "3"] 8).2 5 0 (1 * ((3 : ℕ) : ℚ))
    rfl rfl rfl rfl).1 (Or.inl (by norm_num))

/-- C7 counterexample: driver 2 invoked as `./prog abc 4 2.5` has a
malformed first argument; `std::stoull` throws at line 166, outside the try
block that only starts at line 181, so the process is terminated by
`std::terminate`/`SIGABRT` — it never performs a normal exit with a
non-zero exit code as the claim states. -/
theorem driver2_malformed_aborts_counterexample :
    driver2_exit ["abc", "4", "2.5"] 8 = ProcExit.aborted ∧
    isNonzeroExit (driver2_exit ["abc", "4", "2.5"] 8) = false ∧
    driver2_ran_parallel ["abc", "4", "2.5"] 8 = false :=
  ⟨rfl, rfl, rfl⟩

/-- C7 (amended): a malformed positional numeric argument makes the parse
call throw before any parallel work starts, in both drivers; the exception
escapes every handler (driver 2 parses before its try block, driver 1 has
no handler at all), so the process terminates abnormally via
`std::terminate` rather than exiting with a non-zero exit code, and is
never retried. -/
theorem malformed_argument_aborts_before_work (args : List String) (hw : ℕ) :
    (args.length = 3 →
      (stoull (args.getD 0 "") = none ∨ stoi (args.getD 1 "") = none ∨
        stod (args.getD 2 "") = none) →
      driver2_main args hw = Driver2Result.parseAbort ∧
      driver2_exit args hw = ProcExit.aborted ∧
      driver2_ran_parallel args hw = false) ∧
    ((1 ≤ args.length ∧ stoul (args.getD 0 "") = none) ∨
      (2 ≤ args.length ∧ stoul (args.getD 1 "") = none) ∨
      (3 ≤ args.length ∧ stod (args.getD 2 "") = none) →
      driver1_main args = Driver1Result.parseAbort ∧
      driver1_exit args = ProcExit.aborted ∧
      driver1_ran_compute args = false) := by
  constructor
  · intro hlen hmal
    have hmain : driver2_main args hw = Driver2Result.parseAbort := by
      unfold driver2_main
      rw [if_neg (by omega)]
      cases hs0 : stoull (args.getD 0 "") with
      | none => simp only [hs0]
      | some vs =>
          cases hs1 : stoi (args.getD 1 "") with
          | none => simp only [hs0, hs1]
          | some nt =>
              cases hs2 : stod (args.getD 2 "") with
              | none => simp only [hs0, hs1, hs2]
              | some a =>
                  exfalso
                  rcases hmal with h | h | h
                  · rw [h] at hs0; cases hs0
                  · rw [h] at hs1; cases hs1
                  · rw [h] at hs2; cases hs2
    refine ⟨hmain, ?_, ?_⟩
    · unfold driver2_exit
      rw [hmain]
    · unfold driver2_ran_parallel
      rw [hmain]
  · intro hmal
    have hmain : driver1_main args = Driver1Result.parseAbort := by
      unfold driver1_main
      rcases hmal with ⟨hlen, h0⟩ | ⟨hlen, h1⟩ | ⟨hlen, h2⟩
      · simp only [if_pos hlen, h0]
      · rw [if_pos (show 1 ≤ args.length by omega)]
        cases hs0 : stoul (args.getD 0 "") with
        | none => simp only
        | some vs =>
            simp only [if_pos hlen, h1]
      · rw [if_pos (show 1 ≤ args.length by omega)]
        cases hs0 : stoul (args.getD 0 "") with
        | none => simp only
        | some vs =>
            rw [if_pos (show 2 ≤ args.length by omega)]
            cases hs1 : stoul (args.getD 1 "") with
            | none => simp only
            | some nt =>
                simp only [if_pos hlen, h2]
    refine ⟨hmain, ?_, ?_⟩
    · unfold driver1_exit
      rw [hmain]
    · unfold driver1_ran_compute
      rw [hmain]

/-- C7 witness: driver 1 invoked with the single malformed argument `xyz`
aborts before computing. -/
theorem malformed_argument_aborts_witness :
    driver1_main ["xyz"] = Driver1Result.parseAbort ∧
    driver1_exit ["xyz"] = ProcExit.aborted ∧
    driver1_ran_compute ["xyz"] = false :=
  (malformed_argument_aborts_before_work ["xyz"] 0).2
    (Or.inl ⟨by norm_num, rfl⟩)

/-- C8 counterexample: driver 1 invoked as `./prog abc` has a malformed
first argument; `std::stoul` throws at line 87 with no try/catch anywhere
in driver 1, so the process aborts instead of exiting with code 0 — the
claim's "exit code 0 for every invocation" is false. -/
theorem driver1_malformed_not_exit_zero_counterexample :
    driver1_exit ["abc"] = ProcExit.aborted ∧
    driver1_exit ["abc"] ≠ ProcExit.exited 0 := by
  refine ⟨rfl, fun h => ?_⟩
  have h' : ProcExit.aborted = ProcExit.exited 0 :=
    Eq.trans (Eq.symm (rfl : driver1_exit ["abc"] = ProcExit.aborted)) h
  cases h'

/-- C8 (amended): driver 1 accepts up to three optional positional arguments
parsed left-to-right with defaults vector_size=1000, num_threads=1,
alpha=2.5 when omitted, and every invocation whose supplied numeric
arguments parse successfully exits with code 0 (no validation is performed
on the parsed values); an invocation with a malformed numeric argument
instead aborts via an uncaught parse exception. -/
theorem driver1_cli_defaults_and_exit (args : List String) (vs nt : ℕ) (a : ℚ)
    (h1 : (if 1 ≤ args.length then stoul (args.getD 0 "") else some 1000) =
      some vs)
    (h2 : (if 2 ≤ args.length then stoul (args.getD 1 "") else some 1) =
      some nt)
    (h3 : (if 3 ≤ args.length then stod (args.getD 2 "") else some (5 / 2)) =
      some a) :
    driver1_main args = Driver1Result.done (driver1_print vs nt a) ∧
    driver1_exit args = ProcExit.exited 0 ∧
    driver1_ran_compute args = true ∧
    (args = [] → vs = 1000 ∧ nt = 1 ∧ a = 5 / 2) := by
  have hmain : driver1_main args = Driver1Result.done (driver1_print vs nt a) := by
    unfold driver1_main
    simp only [h1, h2, h3]
  refine ⟨hmain, ?_, ?_, ?_⟩
  · unfold driver1_exit
    rw [hmain]
  · unfold driver1_ran_compute
    rw [hmain]
  · intro hnil
    subst hnil
    simp only [List.length_nil] at h1 h2 h3
    rw [if_neg (by omega)] at h1
    rw [if_neg (by omega)] at h2
    rw [if_neg (by omega)] at h3
    exact ⟨(Option.some_inj.mp h1).symm, (Option.some_inj.mp h2).symm,
      (Option.some_inj.mp h3).symm⟩

/-- C8 witness: `./prog 8 2 3` parses, computes, and exits 0. -/
theorem driver1_cli_defaults_and_exit_witness :
    driver1_main ["8", "2", "3"] =
      Driver1Result.done (driver1_print 8 2 (1 * ((3 : ℕ) : ℚ))) ∧
    driver1_exit ["8", "2", "3"] = ProcExit.exited 0 ∧
    driver1_ran_compute ["8", "2", "3"] = true ∧
    (["8", "2", "3"] = [] →
      8 = 1000 ∧ 2 = 1 ∧ (1 * ((3 : ℕ) : ℚ)) = 5 / 2) :=
  driver1_cli_defaults_and_exit ["8", "2", "3"] 8 2 (1 * ((3 : ℕ) : ℚ))
    rfl rfl rfl

/-- C9: in driver 2's barrier-gated mode every worker arrives exactly once
at the first barrier (as its first action, before its compute loop) and
exactly once at the second barrier (after its compute loop), only the
worker with partition index 0 carries the statistics events, exactly once
each; and in every schedule consistent with the barrier semantics (an
N-party barrier releases no party until all T have arrived), every write
happens after all T first-barrier arrivals and before the writer's own
second-barrier arrival, the reset+start call happens at the first barrier
crossing (after all first-barrier arrivals, before the second), and the
stop+dump call happens at the second barrier crossing (after all T
second-barrier arrivals). -/
theorem mtd_barrier_protocol (N T : ℕ) (_hT : 1 ≤ T) :
    (∀ tid, tid < T →
      (workerTrace N T tid).count (WEvent.arriveBarrier 0) = 1 ∧
      (workerTrace N T tid).count (WEvent.arriveBarrier 1) = 1 ∧
      (workerTrace N T tid).head? = some (WEvent.arriveBarrier 0) ∧
      (workerTrace N T tid).count WEvent.statsResetStart =
        (if tid = 0 then 1 else 0) ∧
      (workerTrace N T tid).count WEvent.statsStopDump =
        (if tid = 0 then 1 else 0)) ∧
    (∀ l, IsInterleaving N T l → BarrierOK T l →
      (∀ j t i, l[j]? = some (t, WEvent.write i) →
        (∀ u, u < T → arrivedBy l j u 0) ∧ ¬ arrivedBy l j t 1) ∧
      (∀ j t, l[j]? = some (t, WEvent.statsResetStart) →
        t = 0 ∧ (∀ u, u < T → arrivedBy l j u 0) ∧ ¬ arrivedBy l j t 1) ∧
      (∀ j t, l[j]? = some (t, WEvent.statsStopDump) →
        t = 0 ∧ ∀ u, u < T → arrivedBy l j u 1)) := by
  constructor
  · intro tid _
    obtain ⟨c0, c1, c2, c3⟩ := workerTrace_counts N T tid
    exact ⟨c0, c1, workerTrace_head N T tid, c2, c3⟩
  · intro l hI hB
    obtain ⟨hbound, hproj⟩ := hI
    have key : ∀ j t (e : WEvent), l[j]? = some (t, e) → t < T ∧ j < l.length := by
      intro j t e hj
      obtain ⟨hjlt, hjget⟩ := List.getElem?_eq_some.mp hj
      exact ⟨hbound (t, e) (hjget ▸ List.getElem_mem hjlt), hjlt⟩
    refine ⟨?_, ?_, ?_⟩
    · intro j t i hj
      obtain ⟨ht, hjlt⟩ := key j t _ hj
      obtain ⟨m, hm, htake⟩ :=
        proj_occurrence l t (WEvent.write i) j _ (hproj t ht) hj
      have own0 : arrivedBy l j t 0 := by
        unfold arrivedBy
        rw [mem_take_pair_iff, ← htake]
        exact workerTrace_before_arrive0 N T t m (WEvent.write i)
          (fun h => WEvent.noConfusion h) hm
      have hall0 := hB j hjlt t ht 0 (by omega) (by rw [hj]; rfl) own0
      have not1 : ¬ arrivedBy l j t 1 := by
        unfold arrivedBy
        rw [mem_take_pair_iff, ← htake]
        exact workerTrace_write_before_arrive1 N T t m i hm
      exact ⟨hall0, not1⟩
    · intro j t hj
      obtain ⟨ht, hjlt⟩ := key j t _ hj
      obtain ⟨m, hm, htake⟩ :=
        proj_occurrence l t WEvent.statsResetStart j _ (hproj t ht) hj
      have ht0 : t = 0 :=
        workerTrace_reset_tid N T t (mem_of_getElem?_some _ m _ hm)
      have own0 : arrivedBy l j t 0 := by
        unfold arrivedBy
        rw [mem_take_pair_iff, ← htake]
        exact workerTrace_before_arrive0 N T t m WEvent.statsResetStart
          (fun h => WEvent.noConfusion h) hm
      have hall0 := hB j hjlt t ht 0 (by omega) (by rw [hj]; rfl) own0
      have not1 : ¬ arrivedBy l j t 1 := by
        unfold arrivedBy
        rw [mem_take_pair_iff, ← htake]
        exact workerTrace_reset_before_arrive1 N T t m hm
      exact ⟨ht0, hall0, not1⟩
    · intro j t hj
      obtain ⟨ht, hjlt⟩ := key j t _ hj
      obtain ⟨m, hm, htake⟩ :=
        proj_occurrence l t WEvent.statsStopDump j _ (hproj t ht) hj
      have ht0 : t = 0 :=
        workerTrace_dump_tid N T t (mem_of_getElem?_some _ m _ hm)
      have own1 : arrivedBy l j t 1 := by
        unfold arrivedBy
        rw [mem_take_pair_iff, ← htake]
        exact workerTrace_dump_after_arrive1 N T t m hm
      have hall1 := hB j hjlt t ht 1 (by omega) (by rw [hj]; rfl) own1
      exact ⟨ht0, hall1⟩

/-- C9 witness: in the concrete schedule the write at position 3 (thread 0,
index 0) is preceded by thread 1's first-barrier arrival. -/
theorem mtd_barrier_protocol_witness : arrivedBy exampleSchedule 3 1 0 :=
  ((((mtd_barrier_protocol 2 2 (by norm_num)).2 exampleSchedule
    (by constructor
        · decide
        · decide)
    (by decide)).1 3 0 0 (by decide)).1 1 (by norm_num))

/-- C10: driver 1's initialization is deterministic, x[i] = i+1 and
y[i] = N-i, so the computed output and the printed first min(10, N) results
are an explicit function of (vector_size, num_threads, alpha) alone —
identical across any two runs. -/
theorem driver1_deterministic_output (N T : ℕ) (alpha : ℚ) :
    (∀ i, i < N → (initX N).getD i 0 = (i : ℚ) + 1) ∧
    (∀ i, i < N → (initY N).getD i 0 = ((N - i : ℕ) : ℚ)) ∧
    driver1_compute N T alpha =
      ((List.range N).map fun i : ℕ =>
        alpha * ((i : ℚ) + 1) + ((N - i : ℕ) : ℚ)) ∧
    driver1_print N T alpha =
      (((List.range N).map fun i : ℕ =>
        alpha * ((i : ℚ) + 1) + ((N - i : ℕ) : ℚ)).take (min 10 N)) := by
  refine ⟨fun i hi => initX_getD N i hi, fun i hi => initY_getD N i hi,
    driver1_compute_eq N T alpha, ?_⟩
  unfold driver1_print
  rw [driver1_compute_eq N T alpha]

/-- C10 witness at N=3, T=2, alpha=7: the compute phase equals its closed
form. -/
theorem driver1_deterministic_output_witness :
    driver1_compute 3 2 7 =
      ((List.range 3).map fun i : ℕ =>
        7 * ((i : ℚ) + 1) + ((3 - i : ℕ) : ℚ)) :=
  (driver1_deterministic_output 3 2 7).2.2.1
